import Mathlib

/-!
A shallow embedding of the book-recommendation backend (src/app.py).

Modelling choices:
* Python strings are Lean `String`; `str.strip()` is `pyStrip`
  (drop leading/trailing whitespace characters), `str.lower()` is
  `pyLower` (characterwise lowercasing), and the Python substring test
  `q in t` is `hasSub` on the character lists.  These are defined by
  structural recursion on the character list so that every definition
  evaluates inside the kernel.
* The pandas index `pt.index` is the ordered list of title strings
  (`List String`); `similarity_score` is a row-major list of rows.
  Similarity scores are modelled as rationals `ℚ`: the engine only ever
  compares scores, never does arithmetic on them, so any linearly
  ordered numeric type gives a faithful model of the comparisons.
* Python dicts are insertion-ordered association lists with unique keys;
  `dictGet` is `d.get(k)`-style first-match lookup and `dictInsert` is
  `d[k] = v` (update in place keeps the key position, a new key is
  appended), which is exactly how a dict comprehension builds its dict.
* `sorted(..., key=lambda x: x[1], reverse=True)` is a stable sort by
  descending second component; it is modelled by `List.insertionSort`
  with the relation `fun a b => b.2 ≤ a.2`, which is likewise stable.
* Exceptions that `recommend` catches (`IndexError`) are modelled by
  `Option`: a `none` from a lookup is the raised `IndexError`, and the
  surrounding `try` turns it into `{"recommended": []}`.  The
  module-level loader catches only `FileNotFoundError`; other load
  failures propagate, modelled by `Except Unit` (`.error ()` is an
  uncaught exception escaping the module initialisation).
-/

namespace App

/-- A metadata record as stored in the pickled dicts: the code only ever
reads the optional `"author"` and `"image"` fields via `.get`. -/
structure BookInfo where
  author : Option String
  image : Option String
deriving DecidableEq, Repr

/-- The JSON object assembled for each book in a response:
`{"title": ..., "author": ..., "image": ...}`. -/
structure BookOut where
  title : String
  author : String
  image : String
deriving DecidableEq, Repr

/-- Response of `GET /top-books`. -/
inductive TopResponse where
  | error : String → TopResponse
  | books : List BookOut → TopResponse
deriving DecidableEq, Repr

/-- Response of `GET /recommend`. -/
inductive RecResponse where
  | error : String → RecResponse
  | recommended : List BookOut → RecResponse
deriving DecidableEq, Repr

/-- A Python dict of book metadata: insertion-ordered association list. -/
abbrev Catalog := List (String × BookInfo)

/-- The module-level state after the data-loading section ran:
`pt` (only its `.index` matters), `similarity_score`, `top_book_info`,
`full_book_info`.  `none` is the `None` sentinel; the empty list is the
empty dict `{}`. -/
structure AppState where
  pt : Option (List String)
  similarity_score : Option (List (List ℚ))
  top_book_info : Catalog
  full_book_info : Catalog
deriving DecidableEq, Repr

/-- `d.get(k)`: first-match lookup in an association list (keys are
unique in any list built by `dictInsert`, so first match is the match). -/
def dictGet {β : Type} : List (String × β) → String → Option β
  | [], _ => none
  | kv :: rest, k => if kv.1 = k then some kv.2 else dictGet rest k

/-- `d[k] = v` on a Python dict: if the key exists its value is replaced
in place (position kept), otherwise the pair is appended. -/
def dictInsert {β : Type} : List (String × β) → String → β → List (String × β)
  | [], k, v => [(k, v)]
  | kv :: rest, k, v => if kv.1 = k then (k, v) :: rest else kv :: dictInsert rest k v

/-- Python `str.strip()`: remove leading and trailing whitespace. -/
def pyStrip (s : String) : String :=
  ⟨((s.data.dropWhile Char.isWhitespace).reverse.dropWhile Char.isWhitespace).reverse⟩

/-- Python `str.lower()`: lowercase every character. -/
def pyLower (s : String) : String :=
  ⟨s.data.map Char.toLower⟩

/-- `{k.strip(): v for k, v in d.items()}` (lines 40-41 of app.py). -/
def stripKeys (art : Catalog) : Catalog :=
  art.foldl (fun d kv => dictInsert d (pyStrip kv.1) kv.2) []

/-- `needle` is a prefix of the second list (character-wise equality). -/
def prefixMatch : List Char → List Char → Bool
  | [], _ => true
  | _ :: _, [] => false
  | a :: as, b :: bs => a == b && prefixMatch as bs

/-- `hasSub needle hay`: some tail of `hay` starts with `needle`. -/
def hasSub (needle : List Char) : List Char → Bool
  | [] => needle.isEmpty
  | c :: rest => prefixMatch needle (c :: rest) || hasSub needle rest

/-- The Python membership test `q in t` on strings. -/
def strContains (t q : String) : Bool :=
  hasSub q.data t.data

/-- `book.strip().lower()` (line 83). -/
def normalizeQuery (book : String) : String :=
  pyLower (pyStrip book)

/-- `[t for t in pt.index if q in t.lower()]` (line 86). -/
def matchesFor (ptIdx : List String) (book : String) : List String :=
  ptIdx.filter (fun t => strContains (pyLower t) (normalizeQuery book))

/-- `np.where(pt.index == m)[0][0]` (line 92): position of the first
occurrence of `m` in the index, `none` when absent (that `[0]` on an
empty position array is the `IndexError` case). -/
def npWhereFirst (ptIdx : List String) (m : String) : Option Nat :=
  (ptIdx.enum.find? (fun p => p.2 == m)).map (·.1)

/-- `sorted(list(enumerate(similarity_score[idx])), key=lambda x: x[1],
reverse=True)` (line 93): stable descending sort of `(column, score)`
pairs by score. -/
def sortedSims (row : List ℚ) : List (Nat × ℚ) :=
  List.insertionSort (fun a b => b.2 ≤ a.2) row.enum

/-- The `[1:6]` slice of the sorted pairs (line 93). -/
def simsSelect (row : List ℚ) : List (Nat × ℚ) :=
  ((sortedSims row).drop 1).take 5

/-- One element of the response list (lines 97-103): the title is the
stripped indexed title, metadata comes from `full_book_info.get(title, {})`
with the `"Unknown Author"` / `""` defaults. -/
def mkEntry (full : Catalog) (title : String) : BookOut :=
  let info := (dictGet full title).getD ⟨none, none⟩
  { title := title
    author := info.author.getD "Unknown Author"
    image := info.image.getD "" }

/-- The `for i in sims` loop (lines 96-103).  `pt.index[i[0]]` can raise
`IndexError`; a `none` here aborts the whole `try` block. -/
def buildRecs (ptIdx : List String) (full : Catalog) :
    List (Nat × ℚ) → Option (List BookOut)
  | [] => some []
  | p :: rest => do
    let t ← ptIdx.get? p.1
    let recs ← buildRecs ptIdx full rest
    pure (mkEntry full (pyStrip t) :: recs)

/-- The body of the `try` block (lines 91-105): resolve the row index of
the first match, fetch its similarity row, slice the sorted pairs and
build the response records.  `none` is a raised `IndexError`. -/
def tryBlock (ptIdx : List String) (sim : List (List ℚ)) (full : Catalog)
    (m : String) : Option (List BookOut) := do
  let idx ← npWhereFirst ptIdx m
  let row ← sim.get? idx
  buildRecs ptIdx full (simsSelect row)

/-- The not-ready error payload of `/recommend` (line 81). -/
def notReadyMsg : String := "Recommendation engine not ready. Data not loaded."

/-- `recommend(book)` (lines 74-107). -/
def recommend (st : AppState) (book : String) : RecResponse :=
  match st.pt, st.similarity_score with
  | some ptIdx, some sim =>
    if st.full_book_info.isEmpty then RecResponse.error notReadyMsg
    else
      match matchesFor ptIdx book with
      | [] => RecResponse.recommended []
      | m :: _ =>
        match tryBlock ptIdx sim st.full_book_info m with
        | some recs => RecResponse.recommended recs
        | none => RecResponse.recommended []
  | _, _ => RecResponse.error notReadyMsg

/-- `get_top_books()` (lines 54-69): append one record per entry of
`top_book_info`, in dict iteration (= insertion) order. -/
def get_top_books (st : AppState) : TopResponse :=
  if st.top_book_info.isEmpty then TopResponse.error "Book data not loaded."
  else TopResponse.books (st.top_book_info.foldl
    (fun acc kv => acc ++ [{ title := kv.1
                             author := kv.2.author.getD "Unknown Author"
                             image := kv.2.image.getD "" }]) [])

/-- Outcome of loading one pickled artifact: loaded, file missing
(`FileNotFoundError`), or any other failure (unreadable file, bad gzip
stream, pickle deserialization error, ...). -/
inductive LoadOutcome (α : Type) where
  | ok : α → LoadOutcome α
  | fileNotFound : LoadOutcome α
  | deserializeError : LoadOutcome α
deriving DecidableEq

def LoadOutcome.isFileNotFound {α : Type} : LoadOutcome α → Bool
  | .fileNotFound => true
  | _ => false

def LoadOutcome.isDeserializeError {α : Type} : LoadOutcome α → Bool
  | .deserializeError => true
  | _ => false

/-- The sentinel assignment of the `except FileNotFoundError` handler
(line 47): `pt, similarity_score, top_book_info, full_book_info = None,
None, {}, {}`. -/
def sentinelState : AppState :=
  { pt := none, similarity_score := none, top_book_info := [], full_book_info := [] }

/-- The module-level data-loading section (lines 26-47).  The four
artifacts are opened and unpickled in order inside one `try`; only
`FileNotFoundError` is caught (producing the sentinel state), every
other exception propagates out (`.error ()`). -/
def loadData (ptA : LoadOutcome (List String)) (simA : LoadOutcome (List (List ℚ)))
    (topA fullA : LoadOutcome Catalog) : Except Unit AppState :=
  match ptA with
  | .deserializeError => .error ()
  | .fileNotFound => .ok sentinelState
  | .ok pt =>
    match simA with
    | .deserializeError => .error ()
    | .fileNotFound => .ok sentinelState
    | .ok sim =>
      match topA with
      | .deserializeError => .error ()
      | .fileNotFound => .ok sentinelState
      | .ok top =>
        match fullA with
        | .deserializeError => .error ()
        | .fileNotFound => .ok sentinelState
        | .ok full =>
          .ok { pt := some pt, similarity_score := some sim,
                top_book_info := stripKeys top, full_book_info := stripKeys full }

/-! ### Helper lemmas -/

theorem hasSub_nil_left : ∀ t : List Char, hasSub [] t = true
  | [] => rfl
  | _ :: _ => by simp [hasSub, prefixMatch]

theorem strContains_empty (t : String) : strContains t "" = true :=
  hasSub_nil_left t.data

theorem head?_filter {α : Type} (p : α → Bool) :
    ∀ l : List α, (l.filter p).head? = l.find? p
  | [] => rfl
  | a :: l => by
    by_cases h : p a = true
    · simp [List.filter_cons, List.find?_cons, h]
    · simp only [List.filter_cons, List.find?_cons]
      rw [if_neg h, Bool.not_eq_true] at *
      simp [h, head?_filter p l]

theorem buildRecs_length (ptIdx : List String) (full : Catalog) :
    ∀ (l : List (Nat × ℚ)) (r : List BookOut),
      buildRecs ptIdx full l = some r → r.length = l.length
  | [], r => by intro h; cases h; rfl
  | p :: rest, r => by
    simp only [buildRecs, Option.bind_eq_bind, Option.bind_eq_some, Option.pure_def,
      Option.some.injEq]
    rintro ⟨t, _, recs, hrecs, rfl⟩
    simp [buildRecs_length ptIdx full rest recs hrecs]

theorem length_sortedSims (row : List ℚ) : (sortedSims row).length = row.length := by
  unfold sortedSims
  rw [(List.perm_insertionSort _ row.enum).length_eq, List.enum_length]

theorem length_simsSelect (row : List ℚ) :
    (simsSelect row).length = min 5 (row.length - 1) := by
  simp [simsSelect, List.length_take, List.length_drop, length_sortedSims]

theorem tryBlock_length (ptIdx : List String) (sim : List (List ℚ)) (full : Catalog)
    (m : String) (recs : List BookOut)
    (h : tryBlock ptIdx sim full m = some recs) : recs.length ≤ 5 := by
  simp only [tryBlock, Option.bind_eq_bind, Option.bind_eq_some] at h
  obtain ⟨idx, _, row, _, hb⟩ := h
  have := buildRecs_length ptIdx full _ recs hb
  rw [this, length_simsSelect]
  exact min_le_left _ _

/-- The strict version of the sort order actually realised by the stable
sort on an enumerated row: strictly greater score, or equal score and
strictly smaller column index. -/
def simLex (a b : Nat × ℚ) : Prop :=
  b.2 < a.2 ∨ (a.2 = b.2 ∧ a.1 < b.1)

theorem simLex_le {a b : Nat × ℚ} (h : simLex a b) : b.2 ≤ a.2 := by
  rcases h with h | ⟨h, _⟩
  · exact le_of_lt h
  · exact le_of_eq h.symm

theorem simLex_of_le {a c : Nat × ℚ} (h : c.2 ≤ a.2) (hi : a.1 < c.1) : simLex a c := by
  rcases lt_or_eq_of_le h with h' | h'
  · exact Or.inl h'
  · exact Or.inr ⟨h'.symm, hi⟩

theorem pairwise_simLex_orderedInsert (a : Nat × ℚ) (l : List (Nat × ℚ))
    (hl : l.Pairwise simLex) (ha : ∀ b ∈ l, a.1 < b.1) :
    (List.orderedInsert (fun x y => y.2 ≤ x.2) a l).Pairwise simLex := by
  induction l with
  | nil => simp [List.orderedInsert]
  | cons b l ih =>
    simp only [List.orderedInsert]
    by_cases hab : b.2 ≤ a.2
    · rw [if_pos hab]
      refine List.Pairwise.cons ?_ hl
      intro c hc
      rcases List.mem_cons.mp hc with rfl | hc'
      · exact simLex_of_le hab (ha c (by simp))
      · have hcb : c.2 ≤ b.2 := simLex_le (List.rel_of_pairwise_cons hl hc')
        exact simLex_of_le (le_trans hcb hab) (ha c (List.mem_cons_of_mem b hc'))
    · rw [if_neg hab]
      refine List.Pairwise.cons ?_
        (ih hl.of_cons fun c hc => ha c (List.mem_cons_of_mem b hc))
      intro c hc
      have hc' := (List.perm_orderedInsert _ a l).mem_iff.mp hc
      rcases List.mem_cons.mp hc' with rfl | hc''
      · exact Or.inl (lt_of_not_le hab)
      · exact List.rel_of_pairwise_cons hl hc''

theorem pairwise_simLex_insertionSort (l : List (Nat × ℚ))
    (hl : l.Pairwise (fun a b => a.1 < b.1)) :
    (List.insertionSort (fun x y => y.2 ≤ x.2) l).Pairwise simLex := by
  induction l with
  | nil => simp
  | cons a l ih =>
    simp only [List.insertionSort]
    refine pairwise_simLex_orderedInsert a _ (ih hl.of_cons) ?_
    intro b hb
    exact List.rel_of_pairwise_cons hl ((List.mem_insertionSort _).mp hb)

theorem le_fst_of_mem_enumFrom {α : Type} :
    ∀ (n : Nat) (l : List α) (x : Nat × α), x ∈ l.enumFrom n → n ≤ x.1
  | _, [], _, h => by simp [List.enumFrom] at h
  | n, a :: l, x, h => by
    simp only [List.enumFrom, List.mem_cons] at h
    rcases h with rfl | h
    · exact le_refl n
    · exact le_trans (Nat.le_succ n) (le_fst_of_mem_enumFrom (n + 1) l x h)

theorem pairwise_fst_lt_enumFrom {α : Type} :
    ∀ (n : Nat) (l : List α), (l.enumFrom n).Pairwise (fun a b => a.1 < b.1)
  | _, [] => by simp [List.enumFrom]
  | n, a :: l => by
    simp only [List.enumFrom]
    refine List.Pairwise.cons ?_ (pairwise_fst_lt_enumFrom (n + 1) l)
    intro x hx
    exact lt_of_lt_of_le (Nat.lt_succ_self n) (le_fst_of_mem_enumFrom (n + 1) l x hx)

theorem pairwise_fst_lt_enum {α : Type} (l : List α) :
    l.enum.Pairwise (fun a b => a.1 < b.1) :=
  pairwise_fst_lt_enumFrom 0 l

theorem pairwise_simLex_sortedSims (row : List ℚ) :
    (sortedSims row).Pairwise simLex :=
  pairwise_simLex_insertionSort row.enum (pairwise_fst_lt_enum row)

theorem simsSelect_sublist (row : List ℚ) :
    List.Sublist (simsSelect row) (sortedSims row) :=
  (List.take_sublist _ _).trans (List.drop_sublist _ _)

theorem dictGet_dictInsert_self {β : Type} (d : List (String × β)) (k : String) (v : β) :
    dictGet (dictInsert d k v) k = some v := by
  induction d with
  | nil => simp [dictInsert, dictGet]
  | cons kv rest ih =>
    by_cases h : kv.1 = k
    · simp [dictInsert, h, dictGet]
    · simp [dictInsert, h, dictGet, ih]

theorem dictGet_dictInsert_ne {β : Type} (d : List (String × β)) (k k' : String) (v : β)
    (h : k ≠ k') : dictGet (dictInsert d k v) k' = dictGet d k' := by
  induction d with
  | nil => simp [dictInsert, dictGet, h]
  | cons kv rest ih =>
    by_cases hk : kv.1 = k
    · subst hk
      simp [dictInsert, dictGet, h, ih]
    · simp [dictInsert, hk, dictGet, ih]

theorem dictGet_isSome_dictInsert {β : Type} (d : List (String × β)) (k k' : String)
    (v : β) (h : (dictGet d k').isSome = true) :
    (dictGet (dictInsert d k v) k').isSome = true := by
  by_cases hk : k = k'
  · subst hk
    simp [dictGet_dictInsert_self]
  · rw [dictGet_dictInsert_ne d k k' v hk]
    exact h

theorem dictGet_foldl_isSome (k : String) (v : BookInfo) :
    ∀ (art : Catalog) (d : Catalog),
      ((dictGet d (pyStrip k)).isSome = true ∨ (k, v) ∈ art) →
      (dictGet (art.foldl (fun d kv => dictInsert d (pyStrip kv.1) kv.2) d)
        (pyStrip k)).isSome = true
  | [], _, h => by
    rcases h with h | h
    · exact h
    · simp at h
  | kv :: rest, d, h => by
    simp only [List.foldl_cons]
    apply dictGet_foldl_isSome k v rest
    rcases h with h | h
    · exact Or.inl (dictGet_isSome_dictInsert d (pyStrip kv.1) (pyStrip k) kv.2 h)
    · rcases List.mem_cons.mp h with heq | hmem
      · left
        rw [← heq]
        simp [dictGet_dictInsert_self]
      · exact Or.inr hmem

theorem buildRecs_eq_none_iff (ptIdx : List String) (full : Catalog) :
    ∀ l : List (Nat × ℚ),
      (buildRecs ptIdx full l = none ↔ ∃ p ∈ l, ptIdx.get? p.1 = none)
  | [] => by simp [buildRecs]
  | p :: rest => by
    simp only [buildRecs, Option.bind_eq_bind]
    constructor
    · intro h
      cases ht : ptIdx.get? p.1 with
      | none => exact ⟨p, List.mem_cons_self p rest, ht⟩
      | some t =>
        rw [ht] at h
        simp only [Option.some_bind] at h
        cases hb : buildRecs ptIdx full rest with
        | none =>
          obtain ⟨p', hp', hnone⟩ := (buildRecs_eq_none_iff ptIdx full rest).mp hb
          exact ⟨p', List.mem_cons_of_mem p hp', hnone⟩
        | some rs =>
          rw [hb] at h
          simp at h
    · rintro ⟨p', hp', hnone⟩
      rcases List.mem_cons.mp hp' with rfl | hp''
      · rw [hnone]
        rfl
      · have hb := (buildRecs_eq_none_iff ptIdx full rest).mpr ⟨p', hp'', hnone⟩
        cases ht : ptIdx.get? p'.1 <;> cases ht2 : ptIdx.get? p.1 <;> simp [hb]

theorem foldl_append_eq_map {α β : Type} (f : α → β) :
    ∀ (l : List α) (acc : List β),
      l.foldl (fun acc x => acc ++ [f x]) acc = acc ++ l.map f
  | [], acc => by simp
  | x :: l, acc => by
    simp [foldl_append_eq_map f l (acc ++ [f x])]

theorem recommend_loaded (ptIdx : List String) (sim : List (List ℚ)) (top : Catalog)
    (f : String × BookInfo) (fs : Catalog) (q : String) :
    ∃ l, recommend ⟨some ptIdx, some sim, top, f :: fs⟩ q = RecResponse.recommended l
      ∧ l.length ≤ 5 := by
  cases hm : matchesFor ptIdx q with
  | nil => exact ⟨[], by simp [recommend, hm], by simp⟩
  | cons m ms =>
    cases htb : tryBlock ptIdx sim (f :: fs) m with
    | none => exact ⟨[], by simp [recommend, hm, htb], by simp⟩
    | some recs =>
      exact ⟨recs, by simp [recommend, hm, htb],
        tryBlock_length ptIdx sim (f :: fs) m recs htb⟩

/-! ### Claim theorems -/

/-- C1: for every query string, when `pt`, `similarity_score` and
`full_book_info` are loaded (not in the sentinel state), `recommend`
returns a recommendation list of between 0 and 5 entries; being a total
function of the state and query, it never raises to its caller. -/
theorem recommend_returns_at_most_five (st : AppState) (q : String)
    (hpt : st.pt.isSome = true) (hsim : st.similarity_score.isSome = true)
    (hfull : st.full_book_info ≠ []) :
    ∃ l, recommend st q = RecResponse.recommended l ∧ l.length ≤ 5 := by
  rcases st with ⟨pt, sims, top, full⟩
  simp only [Option.isSome_iff_exists] at hpt hsim
  obtain ⟨ptIdx, rfl⟩ := hpt
  obtain ⟨sim, rfl⟩ := hsim
  cases full with
  | nil => exact absurd rfl hfull
  | cons f fs => exact recommend_loaded ptIdx sim top f fs q

/-- C1 witness: a concrete loaded state on which `recommend` yields at
most five recommendations. -/
theorem recommend_returns_at_most_five_witness :
    ∃ l, recommend ⟨some ["Dune"], some [[1]], [], [("Dune", ⟨none, none⟩)]⟩ "x"
        = RecResponse.recommended l ∧ l.length ≤ 5 :=
  recommend_returns_at_most_five _ "x" (by decide) (by decide) (by decide)

/-- C2: `recommend` normalizes the query by trimming and lowercasing,
keeps exactly the titles whose lowercased form contains it as a
substring, and selects the first such title in index order; the empty
query matches every title, so it selects the first title of the index. -/
theorem recommend_first_substring_match (ptIdx : List String) (book : String) :
    (matchesFor ptIdx book).head?
        = ptIdx.find? (fun t => strContains (pyLower t) (normalizeQuery book))
    ∧ (∀ t, t ∈ matchesFor ptIdx book ↔
        t ∈ ptIdx ∧ strContains (pyLower t) (normalizeQuery book) = true)
    ∧ matchesFor ptIdx "" = ptIdx
    ∧ (matchesFor ptIdx "").head? = ptIdx.head? := by
  have hempty : matchesFor ptIdx "" = ptIdx := by
    refine List.filter_eq_self.mpr fun t _ => ?_
    have hq : normalizeQuery "" = "" := by decide
    rw [hq]
    exact strContains_empty (pyLower t)
  refine ⟨head?_filter _ ptIdx, fun t => ?_, hempty, by rw [hempty]⟩
  simp [matchesFor, List.mem_filter]

/-- C3: the ranking step pairs every score of the row with its column
index, sorts the pairs in descending score order, and the `[1:6]` slice
drops the top-ranked pair and keeps the next up-to-five, so it has
`min 5 (N - 1)` entries — a clamped slice, never an error, when `N < 6`. -/
theorem recommend_rank_sort_slice (row : List ℚ) :
    (sortedSims row).Perm row.enum
    ∧ List.Sorted (fun a b : Nat × ℚ => b.2 ≤ a.2) (sortedSims row)
    ∧ simsSelect row = ((sortedSims row).drop 1).take 5
    ∧ (simsSelect row).length = min 5 (row.length - 1) := by
  refine ⟨List.perm_insertionSort _ _, ?_, rfl, length_simsSelect row⟩
  exact (pairwise_simLex_sortedSims row).imp fun h => simLex_le h

/-- C9: the descending sort is stable over the ascending enumeration of
the row, so among selected entries with equal scores the column indices
appear in ascending order. -/
theorem recommend_ties_by_column_index (row : List ℚ) :
    (simsSelect row).Pairwise (fun a b : Nat × ℚ => a.2 = b.2 → a.1 < b.1) := by
  have h := (pairwise_simLex_sortedSims row).sublist (simsSelect_sublist row)
  refine h.imp ?_
  intro a b hab heq
  rcases hab with hlt | ⟨_, hidx⟩
  · rw [heq] at hlt
    exact absurd hlt (lt_irrefl _)
  · exact hidx

/-- C5: `recommend` returns the not-ready error payload exactly when
`pt`, `similarity_score` or `full_book_info` is in the sentinel state,
and that payload is distinct from the successful empty list. -/
theorem recommend_notReady_iff (st : AppState) (q : String) :
    (recommend st q = RecResponse.error notReadyMsg
      ↔ st.pt = none ∨ st.similarity_score = none ∨ st.full_book_info = [])
    ∧ RecResponse.error notReadyMsg ≠ RecResponse.recommended [] := by
  refine ⟨?_, by simp⟩
  rcases st with ⟨pt, sims, top, full⟩
  cases pt with
  | none => simp [recommend]
  | some ptIdx =>
    cases sims with
    | none => simp [recommend]
    | some sim =>
      cases full with
      | nil => simp [recommend]
      | cons f fs =>
        simp only
        constructor
        · intro h
          obtain ⟨l, hl, _⟩ := recommend_loaded ptIdx sim top f fs q
          rw [hl] at h
          simp at h
        · intro h
          simp at h

/-- C10: an empty `full_book_info` alone forces the not-ready error even
when `pt` and `similarity_score` are loaded, while the contents of
`top_book_info` never influence the outcome of `recommend`. -/
theorem recommend_readiness_fields (st : AppState) (q : String) (top2 : Catalog) :
    recommend { st with full_book_info := [] } q = RecResponse.error notReadyMsg
    ∧ recommend { st with top_book_info := top2 } q = recommend st q := by
  rcases st with ⟨pt, sims, top, full⟩
  refine ⟨?_, rfl⟩
  cases pt <;> cases sims <;> simp [recommend]

/-- C4 counterexample: an artifact that fails to deserialize is not
handled by the loading section — the exception propagates to the caller
instead of producing the sentinel state. -/
theorem load_deserialize_propagates :
    loadData LoadOutcome.deserializeError (LoadOutcome.ok []) (LoadOutcome.ok [])
      (LoadOutcome.ok []) = Except.error () := rfl

/-- C4 (amended): only the absent-file failure is caught.  If no
artifact fails to deserialize and at least one is absent, the loader
returns normally with all four structures in the sentinel state
(`pt = none`, `similarity_score = none`, both catalogs empty). -/
theorem load_fileNotFound_sentinel
    (ptA : LoadOutcome (List String)) (simA : LoadOutcome (List (List ℚ)))
    (topA fullA : LoadOutcome Catalog)
    (h1 : ptA.isDeserializeError = false) (h2 : simA.isDeserializeError = false)
    (h3 : topA.isDeserializeError = false) (h4 : fullA.isDeserializeError = false)
    (hfnf : ptA.isFileNotFound = true ∨ simA.isFileNotFound = true
      ∨ topA.isFileNotFound = true ∨ fullA.isFileNotFound = true) :
    loadData ptA simA topA fullA = Except.ok sentinelState := by
  cases ptA <;> cases simA <;> cases topA <;> cases fullA <;>
    simp_all [loadData, LoadOutcome.isDeserializeError, LoadOutcome.isFileNotFound]

/-- C4 witness: a missing similarity-matrix file yields the sentinel
state without propagating. -/
theorem load_fileNotFound_sentinel_witness :
    loadData (LoadOutcome.ok ["Dune"]) LoadOutcome.fileNotFound (LoadOutcome.ok [])
      (LoadOutcome.ok []) = Except.ok sentinelState :=
  load_fileNotFound_sentinel _ _ _ _ rfl rfl rfl rfl (Or.inr (Or.inl rfl))

/-- C6: every metadata key is stripped at load time, so a record stored
under a whitespace-padded key is found via the stripped key; the result
assembly looks records up by the stripped resolved title, and defaults
author to `"Unknown Author"` and image to `""` when the record or its
fields are absent. -/
theorem metadata_key_normalization (art : Catalog) (k : String) (v : BookInfo)
    (hmem : (k, v) ∈ art) :
    (dictGet (stripKeys art) (pyStrip k)).isSome = true
    ∧ (∀ (full : Catalog) (title : String), dictGet full title = none →
        mkEntry full title = ⟨title, "Unknown Author", ""⟩)
    ∧ (∀ (full : Catalog) (title : String), dictGet full title = some ⟨none, none⟩ →
        mkEntry full title = ⟨title, "Unknown Author", ""⟩)
    ∧ (∀ (ptIdx : List String) (full : Catalog) (p : Nat × ℚ)
        (rest : List (Nat × ℚ)) (t : String), ptIdx.get? p.1 = some t →
        buildRecs ptIdx full (p :: rest)
          = (buildRecs ptIdx full rest).map
              (fun rs => mkEntry full (pyStrip t) :: rs)) := by
  refine ⟨dictGet_foldl_isSome k v art [] (Or.inr hmem), ?_, ?_, ?_⟩
  · intro full title h
    simp [mkEntry, h]
  · intro full title h
    simp [mkEntry, h]
  · intro ptIdx full p rest t ht
    simp only [buildRecs, Option.bind_eq_bind, ht, Option.some_bind]
    cases hb : buildRecs ptIdx full rest <;> simp [hb]

/-- C6 witness: the record stored under `"Dune "` is found under the
stripped key `"Dune"`. -/
theorem metadata_key_normalization_witness :
    (("Dune ", ({ author := some "FH", image := none } : BookInfo))
        ∈ [("Dune ", ({ author := some "FH", image := none } : BookInfo))])
    ∧ (dictGet (stripKeys [("Dune ", ({ author := some "FH", image := none } : BookInfo))])
        (pyStrip "Dune ")).isSome = true :=
  ⟨by decide,
    (metadata_key_normalization [("Dune ", ⟨some "FH", none⟩)] "Dune "
      ⟨some "FH", none⟩ (by decide)).1⟩

/-- C7 counterexample: the top catalog `{"": record}` is non-empty, yet
`get_top_books` returns an entry whose title is the empty string, so not
every returned entry has a non-empty title. -/
theorem topbooks_empty_title_cex :
    get_top_books ⟨none, none, [("", ⟨some "A", some "i"⟩)], []⟩
      = TopResponse.books [{ title := "", author := "A", image := "i" }]
    ∧ ([("", (⟨some "A", some "i"⟩ : BookInfo))] : Catalog) ≠ [] := by
  exact ⟨rfl, by simp⟩

/-- C7 (amended): with a non-empty `top_book_info`, `get_top_books`
returns exactly one entry per catalog entry, in insertion order, each
entry's title being the catalog key — hence all titles are non-empty
whenever every key is non-empty. -/
theorem topbooks_count_order (st : AppState) (hne : st.top_book_info ≠ []) :
    ∃ l, get_top_books st = TopResponse.books l
      ∧ l.length = st.top_book_info.length
      ∧ l.map (fun b => b.title) = st.top_book_info.map (fun kv => kv.1)
      ∧ ((∀ kv ∈ st.top_book_info, kv.1 ≠ "") → ∀ b ∈ l, b.title ≠ "") := by
  rcases st with ⟨pt, sims, top, full⟩
  simp only at hne ⊢
  cases top with
  | nil => exact absurd rfl hne
  | cons kv rest =>
    have hgtb : get_top_books ⟨pt, sims, kv :: rest, full⟩
        = TopResponse.books ((kv :: rest).map fun x =>
            { title := x.1, author := x.2.author.getD "Unknown Author",
              image := x.2.image.getD "" }) := by
      simp only [get_top_books, List.isEmpty_cons, Bool.false_eq_true, if_false]
      rw [foldl_append_eq_map]
      simp
    refine ⟨_, hgtb, by simp, by simp, ?_⟩
    intro hkeys b hb
    simp only [List.mem_map] at hb
    obtain ⟨x, hx, rfl⟩ := hb
    exact hkeys x hx

/-- C7 witness: a one-entry top catalog produces exactly one entry with
the key as title. -/
theorem topbooks_count_order_witness :
    ∃ l, get_top_books ⟨none, none, [("Dune", ⟨some "FH", none⟩)], []⟩
        = TopResponse.books l
      ∧ l.length = ([("Dune", (⟨some "FH", none⟩ : BookInfo))] : Catalog).length
      ∧ l.map (fun b => b.title)
          = ([("Dune", (⟨some "FH", none⟩ : BookInfo))] : Catalog).map (fun kv => kv.1)
      ∧ ((∀ kv ∈ ([("Dune", (⟨some "FH", none⟩ : BookInfo))] : Catalog), kv.1 ≠ "")
          → ∀ b ∈ l, b.title ≠ "") :=
  topbooks_count_order ⟨none, none, [("Dune", ⟨some "FH", none⟩)], []⟩ (by simp)

/-- C8: an out-of-range index resolution inside the try block — the
resolved row index beyond the similarity matrix, or a selected column
index beyond the title index — makes `recommend` answer the empty
recommendation list instead of propagating a fault. -/
theorem recommend_out_of_range_empty (st : AppState) (q : String)
    (ptIdx : List String) (sim : List (List ℚ))
    (hpt : st.pt = some ptIdx) (hsim : st.similarity_score = some sim)
    (hfull : st.full_book_info ≠ [])
    (m : String) (ms : List String) (hm : matchesFor ptIdx q = m :: ms)
    (idx : Nat) (hidx : npWhereFirst ptIdx m = some idx)
    (hoob : sim.get? idx = none
      ∨ ∃ row, sim.get? idx = some row
          ∧ ∃ p ∈ simsSelect row, ptIdx.get? p.1 = none) :
    recommend st q = RecResponse.recommended [] := by
  have htb : tryBlock ptIdx sim st.full_book_info m = none := by
    rcases hoob with h | ⟨row, hrow, p, hp, hnone⟩
    · rw [List.get?_eq_getElem?] at h
      simp [tryBlock, hidx, h]
    · have hb : buildRecs ptIdx st.full_book_info (simsSelect row) = none :=
        (buildRecs_eq_none_iff ptIdx st.full_book_info (simsSelect row)).mpr
          ⟨p, hp, hnone⟩
      rw [List.get?_eq_getElem?] at hrow
      simp [tryBlock, hidx, hrow, hb]
  rcases st with ⟨pt, sims, top, full⟩
  simp only at hpt hsim hfull htb
  subst hpt hsim
  cases full with
  | nil => exact absurd rfl hfull
  | cons f fs => simp [recommend, hm, htb]

/-- C8 witness: with a title index of one entry but an empty similarity
matrix, the row lookup is out of range and the result is the empty list. -/
theorem recommend_out_of_range_empty_witness :
    recommend ⟨some ["A"], some [], [], [("A", ⟨none, none⟩)]⟩ ""
      = RecResponse.recommended [] :=
  recommend_out_of_range_empty _ "" ["A"] [] rfl rfl (by simp) "A" [] (by decide)
    0 (by decide) (Or.inl rfl)

end App
